import Mathlib

/-
Shallow embedding of pyoptsparse_driver.py (pyOptSparseDriver), an OpenMDAO
driver wrapping pyoptsparse.  Python values that can appear as parameter
values are modelled by PyVal; numbers are modelled with Int and Rat (the
claims here do not hinge on binary floating point).  Host-framework calls
(run_iteration, set_parameter_by_name, calc_gradient, objective/constraint
evaluation) are modelled as behaviour functions that either succeed or
return a Python exception, and the driver code is translated as explicit
state passing plus an event trace recording the calls the driver makes.
-/

set_option autoImplicit false

/-- A Python exception, as raised by the code paths of the driver. -/
inductive PyErr where
  | valueError (msg : String)
  | typeError
  | keyError
  | indexError
  | importError (msg : String)
  | hostError (msg : String)
  deriving DecidableEq, Repr

/-- A Python value that a parameter (or one element of a vector parameter)
can hold: bool, int/int32/int64, float/float32/float64, or any other type
(recorded by its type name).  bool is kept distinct from int, mirroring the
order of the isinstance checks in execute (bool is tested first). -/
inductive PyVal where
  | bool (b : Bool)
  | int (n : Int)
  | float (q : Rat)
  | other (tyname : String)
  deriving DecidableEq, Repr

/-- Type name of a PyVal, used in the ValueError message of execute. -/
def PyVal.typeName : PyVal → String
  | .bool _ => "bool"
  | .int _ => "int"
  | .float _ => "float"
  | .other t => t

/-- The entry of a parameter metadata dictionary under the key "values".
The Python code tests it with isinstance(metadata["values"],
(list, tuple, array, set)) where array is numpy.array imported at line 9.
numpy.array is a builtin FUNCTION, not a type, so in Python 2 the
isinstance call short-circuits to True for a list or a tuple (matched
before reaching array) and raises TypeError for every other kind of value,
including an ndarray or a set, because the non-type item array is reached.
The constructors record these cases. -/
inductive MetaValues where
  | absent
  | vlist (choices : List PyVal)
  | vtuple (choices : List PyVal)
  | vndarray (choices : List PyVal)
  | vset (choices : List PyVal)
  | votherType
  deriving DecidableEq, Repr

/-- pyoptsparse variable kind: discrete, integer or continuous. -/
inductive VarType where
  | d
  | i
  | c
  deriving DecidableEq, Repr

/-- Python 2 round() on a rational: round half away from zero. -/
def pyRound (q : Rat) : Int :=
  if 0 ≤ q then Rat.floor (q + 1 / 2) else -(Rat.floor (1 / 2 - q))

/-- Value written into a host parameter from a solver design value q of
recorded kind t: int(round(q)) for integer kind, q unchanged otherwise
(source lines 193-195 and 231-233). -/
def wbVal (t : VarType) (q : Rat) : PyVal :=
  if t = VarType.i then PyVal.int (pyRound q) else PyVal.float q

/-- Association-list lookup, modelling Python dict lookup d[k]. -/
def alookup {α : Type} : List (String × α) → String → Option α
  | [], _ => none
  | (k, v) :: rest, key => if k = key then some v else alookup rest key

/-- Python dict assignment d[k] = v: replace the binding if the key is
present, append it otherwise. -/
def dictInsert {α : Type} : List (String × α) → String → α → List (String × α)
  | [], k, v => [(k, v)]
  | (k0, v0) :: rest, k, v =>
      if k0 = k then (k, v) :: rest else (k0, v0) :: dictInsert rest k v

/-- The classification of one parameter, source lines 91-108.  The code
first reads val = values[0] (IndexError on an empty value vector), then
tests the metadata "values" entry (see MetaValues for the isinstance
semantics), then bool, then int/int32/int64, then float/float32/float64,
and otherwise raises ValueError through self.raise_exception. -/
def classify (name : String) (md : MetaValues) (values : List PyVal) :
    Except PyErr (VarType × List PyVal) :=
  match values.head? with
  | none => .error PyErr.indexError
  | some val =>
    match md with
    | .vlist cs => .ok (VarType.d, cs)
    | .vtuple cs => .ok (VarType.d, cs)
    | .vndarray _ => .error PyErr.typeError
    | .vset _ => .error PyErr.typeError
    | .votherType => .error PyErr.typeError
    | .absent =>
      match val with
      | .bool _ => .ok (VarType.d, [PyVal.bool true, PyVal.bool false])
      | .int _ => .ok (VarType.i, [])
      | .float _ => .ok (VarType.c, [])
      | v =>
          .error (PyErr.valueError
            ("Only continuous, discrete, or enumerated variables are supported. "
              ++ name ++ " is " ++ v.typeName ++ "."))

/-- A registered host parameter: metadata, value vector, bounds. -/
structure Param where
  metadata : MetaValues
  values : List PyVal
  low : List Rat
  high : List Rat
  deriving DecidableEq, Repr

/-- A registered objective: only its pseudo-component name is used. -/
structure Objective where
  pcomp_name : String
  deriving DecidableEq, Repr

/-- A registered constraint: pseudo-component name, size, linearity flag. -/
structure Constr where
  pcomp_name : String
  size : Nat
  linear : Bool
  deriving DecidableEq, Repr

/-- The host framework state the driver reads: ordered dictionaries of
parameters, objectives, equality and inequality constraints. -/
structure Host where
  parameters : List (String × Param)
  objectives : List (String × Objective)
  eq_constraints : List (String × Constr)
  ineq_constraints : List (String × Constr)
  deriving DecidableEq, Repr

/-- The output name "%s.out0" % pcomp_name used throughout the driver. -/
def pcompOut (p : String) : String := p ++ ".out0"

/-- A gradient block: input name to matrix of partials. -/
abbrev Jac := List (String × List (List Rat))

/-- Dictionary-of-dictionaries gradient, as calc_gradient returns with
return_format=dict: output name to Jac. -/
abbrev JacDict := List (String × Jac)

/-- A design-variable dictionary handed to/from the solver. -/
abbrev DVDict := List (String × Rat)

abbrev PyArray := List Rat

/-- The evaluation dictionary built by objfunc. -/
abbrev FuncDict := List (String × PyArray)

/-- One addVarGroup registration, source lines 113-115. -/
structure VarGroup where
  name : String
  size : Nat
  vartype : VarType
  lower : List Rat
  upper : List Rat
  value : List PyVal
  choices : List PyVal
  deriving DecidableEq, Repr

/-- One addConGroup registration, source lines 138-142 and 151-154.
lower is absent (none) exactly when the source passes no lower bound. -/
structure ConGroup where
  name : String
  size : Nat
  lower : Option (List Rat)
  upper : List Rat
  linear : Bool
  wrt : Option (List String)
  jac : Option Jac
  deriving DecidableEq, Repr

/-- Build the addVarGroup registration of one parameter, source
lines 87-116: classify the value, then register with len(values),
get_low(), get_high(), the current values and the choice list. -/
def mkVarGroup (name : String) (p : Param) : Except PyErr VarGroup :=
  match classify name p.metadata p.values with
  | .error e => .error e
  | .ok (t, ch) =>
      .ok { name := name, size := p.values.length, vartype := t,
            lower := p.low, upper := p.high, value := p.values, choices := ch }

/-- The parameter loop of execute, lines 85-116. -/
def buildVarGroups : List (String × Param) → Except PyErr (List VarGroup)
  | [] => .ok []
  | (n, p) :: rest =>
    match mkVarGroup n p with
    | .error e => .error e
    | .ok vg =>
      match buildVarGroups rest with
      | .error e => .error e
      | .ok vgs => .ok (vg :: vgs)

/-- The param_type dictionary recorded at line 109, one entry per
registered variable group. -/
def paramTypesOf (vgs : List VarGroup) : List (String × VarType) :=
  vgs.map fun g => (g.name, g.vartype)

/-- get_constraints(linear=True): the linear constraints among all
registered constraints. -/
def linearConsOf (host : Host) : List Constr :=
  ((host.eq_constraints ++ host.ineq_constraints).filter
    fun nc => nc.2.linear).map Prod.snd

/-- One equality-constraint registration, lines 132-143: lower and upper
bounds are both zeros(size); a linear constraint is registered with
wrt=param_list and jac=self.lin_jacs[name] (KeyError if absent), a
nonlinear one without a Jacobian and its name is appended to nlcons. -/
def mkEqConGroup (linJacs : JacDict) (paramList : List String) (c : Constr) :
    Except PyErr (ConGroup × Option String) :=
  let name := pcompOut c.pcomp_name
  let zs : List Rat := List.replicate c.size 0
  if c.linear then
    match alookup linJacs name with
    | none => .error PyErr.keyError
    | some j =>
        .ok ({ name := name, size := c.size, lower := some zs, upper := zs,
               linear := true, wrt := some paramList, jac := some j }, none)
  else
    .ok ({ name := name, size := c.size, lower := some zs, upper := zs,
           linear := false, wrt := none, jac := none }, some name)

/-- One inequality-constraint registration, lines 146-155: only an upper
bound of zeros(size) is passed, never a lower bound. -/
def mkIneqConGroup (linJacs : JacDict) (paramList : List String) (c : Constr) :
    Except PyErr (ConGroup × Option String) :=
  let name := pcompOut c.pcomp_name
  let zs : List Rat := List.replicate c.size 0
  if c.linear then
    match alookup linJacs name with
    | none => .error PyErr.keyError
    | some j =>
        .ok ({ name := name, size := c.size, lower := none, upper := zs,
               linear := true, wrt := some paramList, jac := some j }, none)
  else
    .ok ({ name := name, size := c.size, lower := none, upper := zs,
           linear := false, wrt := none, jac := none }, some name)

/-- A constraint loop of execute: build each group, collecting the names
of the nonlinear constraints in order. -/
def buildConGroups (mk : Constr → Except PyErr (ConGroup × Option String)) :
    List (String × Constr) → Except PyErr (List ConGroup × List String)
  | [] => .ok ([], [])
  | (_, c) :: rest =>
    match mk c with
    | .error e => .error e
    | .ok (g, nl) =>
      match buildConGroups mk rest with
      | .error e => .error e
      | .ok (gs, nls) =>
          .ok (g :: gs, (match nl with | some s => s :: nls | none => nls))

/-- Calls the driver makes into the host framework or the solver, in
order.  The solver run itself is opaque (its internal probes call objfunc
and gradfunc, which are modelled as separate functions). -/
inductive Event where
  | runIteration
  | calcGradient (wrt : List String) (outs : List String)
  | setParam (name : String) (val : PyVal)
  | instantiateOptimizer (name : String)
  | solverRun
  | printTraceback
  deriving DecidableEq, Repr

/-- The problem description built by execute before the solver starts:
the Optimization object contents plus the driver attributes param_type,
objs, nlcons and lin_jacs set during the build (lines 79-158). -/
structure BuiltProblem where
  title : String
  varGroups : List VarGroup
  param_type : List (String × VarType)
  param_list : List String
  objectives : List String
  conGroups : List ConGroup
  objs : List String
  nlcons : List String
  lin_jacs : JacDict
  deriving DecidableEq, Repr

/-- Lines 79-158 of execute: add all variable groups, all objectives,
precompute the Jacobian of the linear constraints with one
workflow.calc_gradient call when any exist (lin_jacs stays the initial
empty dict otherwise), then register equality and inequality constraint
groups and record the nonlinear-constraint names.  The returned event
list records the calc_gradient call when it is made. -/
def buildProblem (title : String) (host : Host)
    (calcGrad : List String → List String → Except PyErr JacDict) :
    List Event × Except PyErr BuiltProblem :=
  match buildVarGroups host.parameters with
  | .error e => ([], .error e)
  | .ok vgs =>
    let param_list := host.parameters.map Prod.fst
    let objNames := host.objectives.map fun x => pcompOut x.2.pcomp_name
    let lcons := linearConsOf host
    let lconNames := lcons.map fun c => pcompOut c.pcomp_name
    let evs : List Event :=
      if lcons.isEmpty then [] else [Event.calcGradient param_list lconNames]
    let linJacsRes : Except PyErr JacDict :=
      if lcons.isEmpty then .ok [] else calcGrad param_list lconNames
    match linJacsRes with
    | .error e => (evs, .error e)
    | .ok linJacs =>
      match buildConGroups (mkEqConGroup linJacs param_list) host.eq_constraints with
      | .error e => (evs, .error e)
      | .ok (eqGs, eqNl) =>
        match buildConGroups (mkIneqConGroup linJacs param_list) host.ineq_constraints with
        | .error e => (evs, .error e)
        | .ok (inGs, inNl) =>
            (evs, .ok { title := title, varGroups := vgs,
                        param_type := paramTypesOf vgs,
                        param_list := param_list, objectives := objNames,
                        conGroups := eqGs ++ inGs, objs := objNames,
                        nlcons := eqNl ++ inNl, lin_jacs := linJacs })

/-- The behaviour of the host framework and the solver during one run:
each call either succeeds or raises a Python exception.  solve is the
opaque external optimizer; it yields the final design-variable
dictionary of the solution object. -/
structure HostBehavior where
  run_result : Option PyErr
  set_result : String → PyVal → Option PyErr
  calcGrad : List String → List String → Except PyErr JacDict
  obj_eval : String → Except PyErr PyArray
  con_eval : String → Except PyErr PyArray
  solve : BuiltProblem → DVDict

/-- The parameter write-back loop (identical at lines 192-197 of execute
and lines 230-235 of objfunc): for each registered parameter, read
dv_dict[name] (KeyError if absent), round integer-kind values, and call
set_parameter_by_name.  Returns the set events in order and, on success,
the resulting host parameter assignment. -/
def writeBack (param_type : List (String × VarType)) (dv : DVDict)
    (set_result : String → PyVal → Option PyErr) :
    List (String × Param) → List Event × Except PyErr (List (String × PyVal))
  | [] => ([], .ok [])
  | (name, _) :: rest =>
    match alookup dv name with
    | none => ([], .error PyErr.keyError)
    | some q =>
      match alookup param_type name with
      | none => ([], .error PyErr.keyError)
      | some t =>
        match set_result name (wbVal t q) with
        | some e => ([Event.setParam name (wbVal t q)], .error e)
        | none =>
          match writeBack param_type dv set_result rest with
          | (evs, r) =>
              (Event.setParam name (wbVal t q) :: evs,
               r.map fun st => (name, wbVal t q) :: st)

/-- The objective (lines 241-243) and constraint (lines 246-248)
evaluation loops of objfunc: evaluate each output name in order, filling
func_dict, stopping at the first exception with the dictionary built so
far. -/
def evalOutputs (ev : String → Except PyErr PyArray) :
    List String → FuncDict → FuncDict × Option PyErr
  | [], acc => (acc, none)
  | n :: rest, acc =>
    match ev n with
    | .error e => (acc, some e)
    | .ok arr => evalOutputs ev rest (dictInsert acc n arr)

/-- Objective output names as keyed in objfunc, lines 241-243. -/
def objOutNames (host : Host) : List String :=
  host.objectives.map fun x => pcompOut x.2.pcomp_name

/-- Constraint output names as keyed in objfunc, lines 246-248
(get_constraints() returns every constraint, linear included). -/
def conOutNames (host : Host) : List String :=
  (host.eq_constraints ++ host.ineq_constraints).map fun x => pcompOut x.2.pcomp_name

/-- objfunc, lines 204-263: set the parameters from dv_dict (rounding
integer kinds), run one iteration, evaluate all objectives then all
constraints into func_dict, and return fail=0; any exception in any of
these steps is caught, a traceback is printed, and fail=1 is returned
with the dictionary built so far.  The function is total: no exception
escapes. -/
def objfunc (param_type : List (String × VarType)) (host : Host)
    (hb : HostBehavior) (dv : DVDict) : List Event × FuncDict × Nat :=
  match writeBack param_type dv hb.set_result host.parameters with
  | (evs, .error _) => (evs ++ [Event.printTraceback], [], 1)
  | (evs, .ok _) =>
    match hb.run_result with
    | some _ => (evs ++ [Event.runIteration, Event.printTraceback], [], 1)
    | none =>
      match evalOutputs hb.obj_eval (objOutNames host) [] with
      | (fd, some _) => (evs ++ [Event.runIteration, Event.printTraceback], fd, 1)
      | (fd, none) =>
        match evalOutputs hb.con_eval (conOutNames host) fd with
        | (fd2, some _) => (evs ++ [Event.runIteration, Event.printTraceback], fd2, 1)
        | (fd2, none) => (evs ++ [Event.runIteration], fd2, 0)

/-- gradfunc, lines 265-308: one workflow.calc_gradient call for
self.objs + self.nlcons with respect to dv_dict.keys(); on success
return the sensitivity dictionary with fail=0, on any exception print a
traceback and return the still-empty dictionary with fail=1.  Total: no
exception escapes. -/
def gradfunc (objs nlcons : List String) (hb : HostBehavior) (dv : DVDict) :
    List Event × JacDict × Nat :=
  let ks := dv.map Prod.fst
  let os := objs ++ nlcons
  match hb.calcGrad ks os with
  | .ok s => ([Event.calcGradient ks os], s, 0)
  | .error _ => ([Event.calcGradient ks os, Event.printTraceback], [], 1)

/-- The driver configuration attributes used by execute. -/
structure Driver where
  optimizer : String
  title : String
  options : List (String × String)
  print_results : Bool
  pyopt_diff : Bool

/-- What execute leaves behind on success: the solution design-variable
dictionary, the final host parameter assignment after the write-back,
and the problem/driver attributes built before the solve. -/
structure ExecResult where
  sol_dvs : DVDict
  final_params : List (String × PyVal)
  problem : BuiltProblem
  deriving DecidableEq, Repr

/-- execute, lines 71-202: run one iteration, build the problem
description (a classification ValueError or a calc_gradient exception
aborts here), check the requested optimizer is importable (ImportError
naming it otherwise, before any solver object exists), instantiate the
optimizer and run the solve, write the final design variables back into
the host parameters (rounding integer kinds), and run one more
iteration.  Errors propagate: execute catches nothing itself. -/
def executeDriver (d : Driver) (installed : List String) (host : Host)
    (hb : HostBehavior) : List Event × Except PyErr ExecResult :=
  match hb.run_result with
  | some e => ([Event.runIteration], .error e)
  | none =>
    match buildProblem d.title host hb.calcGrad with
    | (bevs, .error e) => (Event.runIteration :: bevs, .error e)
    | (bevs, .ok bp) =>
      if d.optimizer ∈ installed then
        let dv := hb.solve bp
        match writeBack bp.param_type dv hb.set_result host.parameters with
        | (wevs, .error e) =>
            (Event.runIteration :: bevs
              ++ [Event.instantiateOptimizer d.optimizer, Event.solverRun]
              ++ wevs, .error e)
        | (wevs, .ok st) =>
          match hb.run_result with
          | some e =>
              (Event.runIteration :: bevs
                ++ [Event.instantiateOptimizer d.optimizer, Event.solverRun]
                ++ wevs ++ [Event.runIteration], .error e)
          | none =>
              (Event.runIteration :: bevs
                ++ [Event.instantiateOptimizer d.optimizer, Event.solverRun]
                ++ wevs ++ [Event.runIteration],
               .ok { sol_dvs := dv, final_params := st, problem := bp })
      else
        (Event.runIteration :: bevs,
         .error (PyErr.importError
           ("Optimizer " ++ d.optimizer ++ " is not available in this installation.")))

/- Basic lemmas about the embedded dictionary operations. -/

theorem alookup_cons {α : Type} (k : String) (v : α) (rest : List (String × α))
    (key : String) :
    alookup ((k, v) :: rest) key = if k = key then some v else alookup rest key := rfl

theorem dictInsert_keys_mem {α : Type} (d : List (String × α)) (k key : String)
    (v : α) :
    key ∈ (dictInsert d k v).map Prod.fst ↔ key ∈ d.map Prod.fst ∨ key = k := by
  induction d with
  | nil => simp [dictInsert]
  | cons hd tl ih =>
    obtain ⟨k0, v0⟩ := hd
    by_cases h0 : k0 = k
    · subst h0
      simp [dictInsert]
      tauto
    · simp [dictInsert, h0, ih]
      tauto

theorem dictInsert_keys_nodup {α : Type} (d : List (String × α)) (k : String)
    (v : α) (hd : (d.map Prod.fst).Nodup) :
    ((dictInsert d k v).map Prod.fst).Nodup := by
  induction d with
  | nil => simp [dictInsert]
  | cons hd0 tl ih =>
    obtain ⟨k0, v0⟩ := hd0
    simp only [List.map_cons, List.nodup_cons] at hd
    by_cases h0 : k0 = k
    · subst h0
      have he : dictInsert ((k0, v0) :: tl) k0 v = (k0, v) :: tl := by
        simp [dictInsert]
      rw [he]
      simp only [List.map_cons, List.nodup_cons]
      exact hd
    · simp only [dictInsert, if_neg h0, List.map_cons, List.nodup_cons]
      constructor
      · intro hmem
        rcases (dictInsert_keys_mem tl k k0 v).mp hmem with h | h
        · exact hd.1 h
        · exact h0 h
      · exact ih hd.2

theorem evalOutputs_ok (ev : String → Except PyErr PyArray) :
    ∀ (names : List String) (acc fd : FuncDict),
      evalOutputs ev names acc = (fd, none) →
      (∀ k, k ∈ fd.map Prod.fst ↔ k ∈ acc.map Prod.fst ∨ k ∈ names) ∧
      ((acc.map Prod.fst).Nodup → (fd.map Prod.fst).Nodup) := by
  intro names
  induction names with
  | nil =>
    intro acc fd h
    simp only [evalOutputs] at h
    cases h
    simp
  | cons n rest ih =>
    intro acc fd h
    simp only [evalOutputs] at h
    split at h
    · exact absurd h (by simp)
    · rename_i arr harr
      have := ih (dictInsert acc n arr) fd h
      constructor
      · intro k
        rw [this.1 k, dictInsert_keys_mem]
        simp
        tauto
      · intro hnd
        exact this.2 (dictInsert_keys_nodup acc n arr hnd)

/- Lemmas about the write-back loop shared by execute and objfunc. -/

theorem writeBack_events_mem (pt : List (String × VarType)) (dv : DVDict)
    (sr : String → PyVal → Option PyErr) :
    ∀ (params : List (String × Param)) (evs : List Event)
      (r : Except PyErr (List (String × PyVal))) (e : Event),
      writeBack pt dv sr params = (evs, r) → e ∈ evs →
      ∃ name q t, alookup dv name = some q ∧ alookup pt name = some t ∧
        e = Event.setParam name (wbVal t q) := by
  intro params
  induction params with
  | nil =>
    intro evs r e h he
    simp only [writeBack] at h
    cases h
    simp at he
  | cons hd tl ih =>
    intro evs r e h he
    obtain ⟨name, p⟩ := hd
    simp only [writeBack] at h
    split at h
    · cases h; simp at he
    · rename_i q hq
      split at h
      · cases h; simp at he
      · rename_i t ht
        split at h
        · rename_i err herr
          cases h
          simp only [List.mem_singleton] at he
          exact ⟨name, q, t, hq, ht, he⟩
        · rename_i hset
          injection h with h1 h2
          subst h1
          rcases List.mem_cons.mp he with he0 | he0
          · exact ⟨name, q, t, hq, ht, he0⟩
          · exact ih _ _ e rfl he0

theorem writeBack_ok_lookup (pt : List (String × VarType)) (dv : DVDict)
    (sr : String → PyVal → Option PyErr) :
    ∀ (params : List (String × Param)) (evs : List Event)
      (st : List (String × PyVal)) (name : String) (p : Param),
      writeBack pt dv sr params = (evs, .ok st) →
      (params.map Prod.fst).Nodup → (name, p) ∈ params →
      ∃ q t, alookup dv name = some q ∧ alookup pt name = some t ∧
        alookup st name = some (wbVal t q) ∧
        Event.setParam name (wbVal t q) ∈ evs := by
  intro params
  induction params with
  | nil =>
    intro evs st name p h hn hm
    simp at hm
  | cons hd tl ih =>
    intro evs st name p h hn hm
    obtain ⟨n0, p0⟩ := hd
    simp only [writeBack] at h
    split at h
    · injection h with h1 h2; exact absurd h2 (by simp)
    · rename_i q hq
      split at h
      · injection h with h1 h2; exact absurd h2 (by simp)
      · rename_i t ht
        split at h
        · injection h with h1 h2; exact absurd h2 (by simp)
        · rename_i hset
          injection h with h1 h2
          subst h1
          cases hrec : (writeBack pt dv sr tl).2 with
          | error e2 =>
            rw [hrec] at h2
            exact absurd h2 (by simp [Except.map])
          | ok st2 =>
            rw [hrec] at h2
            simp only [Except.map] at h2
            injection h2 with h3
            subst h3
            simp only [List.map_cons, List.nodup_cons] at hn
            rcases List.mem_cons.mp hm with hm0 | hm0
            · injection hm0 with hname hp
              subst hname
              refine ⟨q, t, hq, ht, ?_, ?_⟩
              · simp [alookup]
              · exact List.mem_cons_self _ _
            · have hne : name ≠ n0 := by
                intro hcontra
                subst hcontra
                exact hn.1 (List.mem_map_of_mem Prod.fst hm0)
              obtain ⟨q2, t2, hq2, ht2, hst2, hev2⟩ :=
                ih _ _ name p (by rw [← hrec]) hn.2 hm0
              refine ⟨q2, t2, hq2, ht2, ?_, List.mem_cons_of_mem _ hev2⟩
              rw [alookup_cons, if_neg (fun hh => hne hh.symm)]
              exact hst2

theorem executeDriver_ok (d : Driver) (installed : List String) (host : Host)
    (hb : HostBehavior) (tr : List Event) (res : ExecResult)
    (h : executeDriver d installed host hb = (tr, .ok res)) :
    hb.run_result = none ∧
    ∃ bevs wevs,
      buildProblem d.title host hb.calcGrad = (bevs, .ok res.problem) ∧
      res.sol_dvs = hb.solve res.problem ∧
      writeBack res.problem.param_type (hb.solve res.problem) hb.set_result
        host.parameters = (wevs, .ok res.final_params) ∧
      d.optimizer ∈ installed ∧
      tr = Event.runIteration :: bevs
            ++ [Event.instantiateOptimizer d.optimizer, Event.solverRun]
            ++ wevs ++ [Event.runIteration] := by
  simp only [executeDriver] at h
  split at h
  · injection h with h1 h2; exact absurd h2 (by simp)
  · rename_i hrun
    split at h
    · injection h with h1 h2; exact absurd h2 (by simp)
    · rename_i bevs bp hbuild
      split at h
      · rename_i hin
        split at h
        · injection h with h1 h2; exact absurd h2 (by simp)
        · rename_i wevs st hwb
          split at h
          · injection h with h1 h2; exact absurd h2 (by simp)
          · injection h with h1 h2
            injection h2 with h3
            subst h3
            subst h1
            exact ⟨hrun, bevs, wevs, hbuild, rfl, hwb, hin, by simp⟩
      · injection h with h1 h2; exact absurd h2 (by simp)

/-- The linear-constraint output names passed to calc_gradient,
source line 126. -/
def lconNamesOf (host : Host) : List String :=
  (linearConsOf host).map fun c => pcompOut c.pcomp_name

theorem buildProblem_ok (t : String) (host : Host)
    (cg : List String → List String → Except PyErr JacDict)
    (bevs : List Event) (bp : BuiltProblem)
    (h : buildProblem t host cg = (bevs, .ok bp)) :
    buildVarGroups host.parameters = .ok bp.varGroups ∧
    bp.param_type = paramTypesOf bp.varGroups ∧
    bp.param_list = host.parameters.map Prod.fst ∧
    bp.objs = objOutNames host ∧
    (∃ eqGs eqNl inGs inNl,
      buildConGroups (mkEqConGroup bp.lin_jacs bp.param_list)
        host.eq_constraints = .ok (eqGs, eqNl) ∧
      buildConGroups (mkIneqConGroup bp.lin_jacs bp.param_list)
        host.ineq_constraints = .ok (inGs, inNl) ∧
      bp.conGroups = eqGs ++ inGs ∧ bp.nlcons = eqNl ++ inNl) ∧
    ((linearConsOf host).isEmpty = true →
      bevs = [] ∧ bp.lin_jacs = []) ∧
    ((linearConsOf host).isEmpty = false →
      bevs = [Event.calcGradient bp.param_list (lconNamesOf host)] ∧
      cg bp.param_list (lconNamesOf host) = .ok bp.lin_jacs) := by
  simp only [buildProblem] at h
  split at h
  · injection h with h1 h2; exact absurd h2 (by simp)
  · rename_i vgs hvgs
    split at h
    · injection h with h1 h2; exact absurd h2 (by simp)
    · rename_i linJacs hlj
      split at h
      · injection h with h1 h2; exact absurd h2 (by simp)
      · rename_i eqGs eqNl heq
        split at h
        · injection h with h1 h2; exact absurd h2 (by simp)
        · rename_i inGs inNl hineq
          injection h with h1 h2
          injection h2 with h3
          subst h3
          subst h1
          refine ⟨hvgs, rfl, rfl, rfl, ⟨eqGs, eqNl, inGs, inNl, heq, hineq, rfl, rfl⟩, ?_, ?_⟩
          · intro hemp
            rw [hemp] at hlj ⊢
            simp_all [lconNamesOf]
          · intro hemp
            rw [hemp] at hlj ⊢
            simp_all [lconNamesOf]

theorem buildVarGroups_mem :
    ∀ (params : List (String × Param)) (vgs : List VarGroup)
      (name : String) (p : Param),
      buildVarGroups params = .ok vgs → (name, p) ∈ params →
      ∃ vg, mkVarGroup name p = .ok vg ∧ vg ∈ vgs := by
  intro params
  induction params with
  | nil => intro vgs name p h hm; simp at hm
  | cons hd tl ih =>
    intro vgs name p h hm
    obtain ⟨n0, p0⟩ := hd
    simp only [buildVarGroups] at h
    split at h
    · exact absurd h (by simp)
    · rename_i vg0 hvg0
      split at h
      · exact absurd h (by simp)
      · rename_i vgs0 hvgs0
        injection h with h1
        subst h1
        rcases List.mem_cons.mp hm with hm0 | hm0
        · injection hm0 with hname hp
          subst hname; subst hp
          exact ⟨vg0, hvg0, List.mem_cons_self _ _⟩
        · obtain ⟨vg, hvg, hmem⟩ := ih vgs0 name p hvgs0 hm0
          exact ⟨vg, hvg, List.mem_cons_of_mem _ hmem⟩

theorem buildConGroups_mem (mk : Constr → Except PyErr (ConGroup × Option String)) :
    ∀ (cons : List (String × Constr)) (gs : List ConGroup) (nls : List String)
      (n : String) (c : Constr),
      buildConGroups mk cons = .ok (gs, nls) → (n, c) ∈ cons →
      ∃ g nl, mk c = .ok (g, nl) ∧ g ∈ gs ∧ (∀ s, nl = some s → s ∈ nls) := by
  intro cons
  induction cons with
  | nil => intro gs nls n c h hm; simp at hm
  | cons hd tl ih =>
    intro gs nls n c h hm
    obtain ⟨n0, c0⟩ := hd
    simp only [buildConGroups] at h
    split at h
    · exact absurd h (by simp)
    · rename_i g0 nl0 hg0
      split at h
      · exact absurd h (by simp)
      · rename_i gs0 nls0 hgs0
        injection h with h1
        injection h1 with h2 h3
        subst h2
        rcases List.mem_cons.mp hm with hm0 | hm0
        · injection hm0 with hname hc
          subst hc
          refine ⟨g0, nl0, hg0, List.mem_cons_self _ _, ?_⟩
          intro s hs
          subst hs
          rw [← h3]
          exact List.mem_cons_self _ _
        · obtain ⟨g, nl, hg, hgm, hnl⟩ := ih gs0 nls0 n c hgs0 hm0
          refine ⟨g, nl, hg, List.mem_cons_of_mem _ hgm, ?_⟩
          intro s hs
          rw [← h3]
          cases nl0 with
          | none => exact hnl s hs
          | some s0 => exact List.mem_cons_of_mem _ (hnl s hs)

theorem buildConGroups_nl_src (mk : Constr → Except PyErr (ConGroup × Option String)) :
    ∀ (cons : List (String × Constr)) (gs : List ConGroup) (nls : List String)
      (s : String),
      buildConGroups mk cons = .ok (gs, nls) → s ∈ nls →
      ∃ n c g, (n, c) ∈ cons ∧ mk c = .ok (g, some s) := by
  intro cons
  induction cons with
  | nil =>
    intro gs nls s h hs
    simp only [buildConGroups] at h
    injection h with h1
    injection h1 with h2 h3
    subst h3
    simp at hs
  | cons hd tl ih =>
    intro gs nls s h hs
    obtain ⟨n0, c0⟩ := hd
    simp only [buildConGroups] at h
    split at h
    · exact absurd h (by simp)
    · rename_i g0 nl0 hg0
      split at h
      · exact absurd h (by simp)
      · rename_i gs0 nls0 hgs0
        injection h with h1
        injection h1 with h2 h3
        subst h3
        cases nl0 with
        | none =>
          obtain ⟨n, c, g, hm, hc⟩ := ih gs0 nls0 s hgs0 hs
          exact ⟨n, c, g, List.mem_cons_of_mem _ hm, hc⟩
        | some s0 =>
          rcases List.mem_cons.mp hs with hs0 | hs0
          · subst hs0
            exact ⟨n0, c0, g0, List.mem_cons_self _ _, hg0⟩
          · obtain ⟨n, c, g, hm, hc⟩ := ih gs0 nls0 s hgs0 hs0
            exact ⟨n, c, g, List.mem_cons_of_mem _ hm, hc⟩

theorem mkEqConGroup_ok (linJacs : JacDict) (paramList : List String)
    (c : Constr) (g : ConGroup) (nl : Option String)
    (h : mkEqConGroup linJacs paramList c = .ok (g, nl)) :
    g.name = pcompOut c.pcomp_name ∧ g.size = c.size ∧
    g.lower = some (List.replicate c.size 0) ∧
    g.upper = List.replicate c.size 0 ∧
    (c.linear = true → g.linear = true ∧ g.wrt = some paramList ∧ nl = none ∧
      ∃ j, alookup linJacs (pcompOut c.pcomp_name) = some j ∧ g.jac = some j) ∧
    (c.linear = false → g.linear = false ∧ g.wrt = none ∧ g.jac = none ∧
      nl = some (pcompOut c.pcomp_name)) := by
  simp only [mkEqConGroup] at h
  split at h
  · rename_i hlin
    split at h
    · exact absurd h (by simp)
    · rename_i j hj
      injection h with h1
      injection h1 with h2 h3
      subst h2; subst h3
      refine ⟨rfl, rfl, rfl, rfl, fun _ => ⟨rfl, rfl, rfl, j, hj, rfl⟩, fun hf => ?_⟩
      rw [hlin] at hf
      exact absurd hf (by simp)
  · rename_i hlin
    injection h with h1
    injection h1 with h2 h3
    subst h2; subst h3
    refine ⟨rfl, rfl, rfl, rfl, fun ht => ?_, fun _ => ⟨rfl, rfl, rfl, rfl⟩⟩
    exact absurd ht (by simpa using hlin)

theorem mkIneqConGroup_ok (linJacs : JacDict) (paramList : List String)
    (c : Constr) (g : ConGroup) (nl : Option String)
    (h : mkIneqConGroup linJacs paramList c = .ok (g, nl)) :
    g.name = pcompOut c.pcomp_name ∧ g.size = c.size ∧
    g.lower = none ∧
    g.upper = List.replicate c.size 0 ∧
    (c.linear = true → g.linear = true ∧ g.wrt = some paramList ∧ nl = none ∧
      ∃ j, alookup linJacs (pcompOut c.pcomp_name) = some j ∧ g.jac = some j) ∧
    (c.linear = false → g.linear = false ∧ g.wrt = none ∧ g.jac = none ∧
      nl = some (pcompOut c.pcomp_name)) := by
  simp only [mkIneqConGroup] at h
  split at h
  · rename_i hlin
    split at h
    · exact absurd h (by simp)
    · rename_i j hj
      injection h with h1
      injection h1 with h2 h3
      subst h2; subst h3
      refine ⟨rfl, rfl, rfl, rfl, fun _ => ⟨rfl, rfl, rfl, j, hj, rfl⟩, fun hf => ?_⟩
      rw [hlin] at hf
      exact absurd hf (by simp)
  · rename_i hlin
    injection h with h1
    injection h1 with h2 h3
    subst h2; subst h3
    refine ⟨rfl, rfl, rfl, rfl, fun ht => ?_, fun _ => ⟨rfl, rfl, rfl, rfl⟩⟩
    exact absurd ht (by simpa using hlin)

theorem buildProblem_events (t : String) (host : Host)
    (cg : List String → List String → Except PyErr JacDict)
    (bevs : List Event) (r : Except PyErr BuiltProblem)
    (h : buildProblem t host cg = (bevs, r)) :
    bevs = [] ∨
    bevs = [Event.calcGradient (host.parameters.map Prod.fst) (lconNamesOf host)] := by
  simp only [buildProblem] at h
  split at h
  · cases h
    exact Or.inl rfl
  · rename_i vgs hvgs
    repeat' split at h
    all_goals
      injection h with h1 h2
    all_goals
      subst h1
    all_goals
      cases he : (linearConsOf host).isEmpty <;> simp [he, lconNamesOf]

theorem buildProblem_events_calc (t : String) (host : Host)
    (cg : List String → List String → Except PyErr JacDict)
    (bevs : List Event) (r : Except PyErr BuiltProblem) (e : Event)
    (h : buildProblem t host cg = (bevs, r)) (he : e ∈ bevs) :
    ∃ a b, e = Event.calcGradient a b := by
  rcases buildProblem_events t host cg bevs r h with h0 | h0
  · rw [h0] at he
    simp at he
  · rw [h0] at he
    rcases List.mem_singleton.mp he with rfl
    exact ⟨_, _, rfl⟩

/- Concrete instances used to witness the theorems below. -/

def exParamC : Param :=
  { metadata := .absent, values := [PyVal.float 0], low := [0], high := [10] }

def exParamI : Param :=
  { metadata := .absent, values := [PyVal.int 0], low := [0], high := [10] }

def exHost : Host :=
  { parameters := [("x", exParamC)],
    objectives := [("obj1", { pcomp_name := "f" })],
    eq_constraints := [], ineq_constraints := [] }

def exHostI : Host :=
  { parameters := [("n", exParamI)],
    objectives := [], eq_constraints := [], ineq_constraints := [] }

def exConL : Constr := { pcomp_name := "h", size := 1, linear := true }

def exConNL : Constr := { pcomp_name := "g", size := 1, linear := false }

def exHostCons : Host :=
  { parameters := [("x", exParamC)],
    objectives := [("obj1", { pcomp_name := "f" })],
    eq_constraints := [("c1", exConL)],
    ineq_constraints := [("c2", exConNL)] }

def exJac : Jac := [("x", [[1]])]

def exHB : HostBehavior :=
  { run_result := none,
    set_result := fun _ _ => none,
    calcGrad := fun _ _ => .ok [("h.out0", exJac)],
    obj_eval := fun _ => .ok [1],
    con_eval := fun _ => .ok [0],
    solve := fun _ => [("x", 3)] }

def exHBI : HostBehavior :=
  { run_result := none,
    set_result := fun _ _ => none,
    calcGrad := fun _ _ => .ok [],
    obj_eval := fun _ => .ok [1],
    con_eval := fun _ => .ok [0],
    solve := fun _ => [("n", 3)] }

def exDriver : Driver :=
  { optimizer := "SLSQP", title := "Optimization using pyOpt",
    options := [], print_results := true, pyopt_diff := false }

/-- The problem execute builds from exHost. -/
def exBP : BuiltProblem :=
  { title := "Optimization using pyOpt",
    varGroups := [{ name := "x", size := 1, vartype := VarType.c,
                    lower := [0], upper := [10],
                    value := [PyVal.float 0], choices := [] }],
    param_type := [("x", VarType.c)],
    param_list := ["x"],
    objectives := ["f.out0"],
    conGroups := [],
    objs := ["f.out0"],
    nlcons := [],
    lin_jacs := [] }

/-- The problem execute builds from exHostCons. -/
def exBPCons : BuiltProblem :=
  { title := "Optimization using pyOpt",
    varGroups := [{ name := "x", size := 1, vartype := VarType.c,
                    lower := [0], upper := [10],
                    value := [PyVal.float 0], choices := [] }],
    param_type := [("x", VarType.c)],
    param_list := ["x"],
    objectives := ["f.out0"],
    conGroups := [{ name := "h.out0", size := 1, lower := some [0], upper := [0],
                    linear := true, wrt := some ["x"], jac := some exJac },
                  { name := "g.out0", size := 1, lower := none, upper := [0],
                    linear := false, wrt := none, jac := none }],
    objs := ["f.out0"],
    nlcons := ["g.out0"],
    lin_jacs := [("h.out0", exJac)] }

/-- C1: the spec says a parameter whose metadata carries an explicit choice
set under "values" of kind list, tuple, array or set is classified
discrete, and that the only fatal classification error is a ValueError for
a value of unsupported type.  The code honours this for a list or a tuple
(and for the bool/int/float/other rules on the first value), but for an
ndarray or a set the isinstance call at line 95 itself raises TypeError,
because the name array in its type tuple is numpy's array function
(imported at line 9), which is not a type: isinstance short-circuits on
list and tuple and blows up on the non-type item for everything else.
This theorem evaluates the embedded classifier at the failing inputs and
at the agreeing ones. -/
theorem C1_choice_set_isinstance_bug :
    classify "p" (MetaValues.vset [PyVal.float 2, PyVal.float 3]) [PyVal.float 2]
      = .error PyErr.typeError ∧
    classify "p" (MetaValues.vndarray [PyVal.float 2, PyVal.float 3]) [PyVal.float 2]
      = .error PyErr.typeError ∧
    classify "p" (MetaValues.vlist [PyVal.float 2, PyVal.float 3]) [PyVal.float 2]
      = .ok (VarType.d, [PyVal.float 2, PyVal.float 3]) ∧
    classify "p" (MetaValues.vtuple [PyVal.float 2, PyVal.float 3]) [PyVal.float 2]
      = .ok (VarType.d, [PyVal.float 2, PyVal.float 3]) ∧
    classify "p" MetaValues.absent [PyVal.bool true]
      = .ok (VarType.d, [PyVal.bool true, PyVal.bool false]) ∧
    classify "p" MetaValues.absent [PyVal.int 4] = .ok (VarType.i, []) ∧
    classify "p" MetaValues.absent [PyVal.float 4] = .ok (VarType.c, []) ∧
    classify "p" MetaValues.absent [PyVal.other "str"]
      = .error (PyErr.valueError
          "Only continuous, discrete, or enumerated variables are supported. p is str.") :=
  ⟨rfl, rfl, rfl, rfl, rfl, rfl, rfl, rfl⟩

/-- C8: every invocation of gradfunc makes exactly one gradient request to
the host differentiation facility, asking for all objectives and all
nonlinear constraints with respect to all design variables of the input
dictionary; on success it returns that dictionary-of-dictionaries with
failure flag 0, and if the host computation raises, the exception is
caught, a traceback is logged and flag 1 is returned with the still-empty
sensitivity dictionary.  The callback is a total function: no exception
escapes. -/
theorem C8_gradfunc_contract (objs nlcons : List String) (hb : HostBehavior)
    (dv : DVDict) (evs : List Event) (sens : JacDict) (fail : Nat)
    (h : gradfunc objs nlcons hb dv = (evs, sens, fail)) :
    Event.calcGradient (dv.map Prod.fst) (objs ++ nlcons) ∈ evs ∧
    ((hb.calcGrad (dv.map Prod.fst) (objs ++ nlcons) = .ok sens ∧ fail = 0) ∨
     ((∃ e, hb.calcGrad (dv.map Prod.fst) (objs ++ nlcons) = .error e) ∧
       fail = 1 ∧ sens = [] ∧ Event.printTraceback ∈ evs)) := by
  simp only [gradfunc] at h
  split at h
  · rename_i s hs
    cases h
    exact ⟨by simp, Or.inl ⟨hs, rfl⟩⟩
  · rename_i e he
    cases h
    exact ⟨by simp, Or.inr ⟨⟨e, he⟩, rfl, rfl, by simp⟩⟩

/-- Witness for C8 at a concrete invocation. -/
theorem C8_witness :
    Event.calcGradient ["x"] (["f.out0"] ++ ["g.out0"])
      ∈ [Event.calcGradient ["x"] (["f.out0"] ++ ["g.out0"])] ∧
    ((exHB.calcGrad ["x"] (["f.out0"] ++ ["g.out0"]) = .ok [("h.out0", exJac)] ∧ 0 = 0) ∨
     ((∃ e, exHB.calcGrad ["x"] (["f.out0"] ++ ["g.out0"]) = .error e) ∧
       0 = 1 ∧ [("h.out0", exJac)] = [] ∧
       Event.printTraceback ∈ [Event.calcGradient ["x"] (["f.out0"] ++ ["g.out0"])])) :=
  C8_gradfunc_contract ["f.out0"] ["g.out0"] exHB [("x", 3)]
    [Event.calcGradient ["x"] (["f.out0"] ++ ["g.out0"])] [("h.out0", exJac)] 0 rfl

/-- C10: for a parameter without an explicit choice set in its metadata,
the classification depends only on the first element of the value vector
(the code reads val = values[0] and never looks further), and the one
inferred kind together with the choice list is applied to the whole
registered variable group, whose size is the full length of the value
vector.  A mixed-type vector is therefore classified silently by its
first element. -/
theorem C10_first_element_classification :
    (∀ (name : String) (v : PyVal) (rest1 rest2 : List PyVal),
      classify name MetaValues.absent (v :: rest1)
        = classify name MetaValues.absent (v :: rest2)) ∧
    (∀ (name : String) (p : Param) (vg : VarGroup),
      mkVarGroup name p = .ok vg →
      classify name p.metadata p.values = .ok (vg.vartype, vg.choices) ∧
      vg.size = p.values.length) := by
  constructor
  · intro name v rest1 rest2
    rfl
  · intro name p vg h
    simp only [mkVarGroup] at h
    split at h
    · exact absurd h (by simp)
    · rename_i t ch hc
      injection h with h1
      subst h1
      exact ⟨hc, rfl⟩

/-- Witness for C10: the mixed vector [int 2, float 3] is classified
integer, exactly as the single-element vector [int 2] is, and the group
built from a two-element integer parameter gets kind i and size 2. -/
theorem C10_witness :
    classify "x" MetaValues.absent [PyVal.int 2, PyVal.float 3]
      = classify "x" MetaValues.absent [PyVal.int 2] ∧
    classify "m" MetaValues.absent [PyVal.int 2, PyVal.float 3]
      = .ok ((VarGroup.mk "m" 2 VarType.i [0, 0] [9, 9]
               [PyVal.int 2, PyVal.float 3] []).vartype,
             (VarGroup.mk "m" 2 VarType.i [0, 0] [9, 9]
               [PyVal.int 2, PyVal.float 3] []).choices) ∧
    (VarGroup.mk "m" 2 VarType.i [0, 0] [9, 9]
      [PyVal.int 2, PyVal.float 3] []).size
      = [PyVal.int 2, PyVal.float 3].length := by
  refine ⟨C10_first_element_classification.1 "x" (PyVal.int 2) [PyVal.float 3] [], ?_, ?_⟩
  · exact (C10_first_element_classification.2 "m"
      { metadata := .absent, values := [PyVal.int 2, PyVal.float 3],
        low := [0, 0], high := [9, 9] } _ rfl).1
  · exact (C10_first_element_classification.2 "m"
      { metadata := .absent, values := [PyVal.int 2, PyVal.float 3],
        low := [0, 0], high := [9, 9] } _ rfl).2

/-- C7: every parameter classified continuous is registered as one
variable group with kind c, exactly the parameter's lower and upper
bounds, its current value vector, an empty choice list, and a group size
equal to the length of the value vector. -/
theorem C7_continuous_registration (t : String) (host : Host)
    (cg : List String → List String → Except PyErr JacDict)
    (bevs : List Event) (bp : BuiltProblem) (name : String) (p : Param)
    (hbuild : buildProblem t host cg = (bevs, .ok bp))
    (hmem : (name, p) ∈ host.parameters)
    (hc : classify name p.metadata p.values = .ok (VarType.c, [])) :
    ∃ vg, vg ∈ bp.varGroups ∧ vg.name = name ∧ vg.vartype = VarType.c ∧
      vg.lower = p.low ∧ vg.upper = p.high ∧ vg.value = p.values ∧
      vg.size = p.values.length ∧ vg.choices = [] := by
  have hvgs := (buildProblem_ok t host cg bevs bp hbuild).1
  obtain ⟨vg, hmk, hvg⟩ := buildVarGroups_mem host.parameters bp.varGroups name p hvgs hmem
  simp only [mkVarGroup, hc] at hmk
  injection hmk with h1
  subst h1
  exact ⟨_, hvg, rfl, rfl, rfl, rfl, rfl, rfl, rfl⟩

/-- Witness for C7 on the one-parameter host exHost. -/
theorem C7_witness :
    ∃ vg, vg ∈ exBP.varGroups ∧ vg.name = "x" ∧ vg.vartype = VarType.c ∧
      vg.lower = exParamC.low ∧ vg.upper = exParamC.high ∧
      vg.value = exParamC.values ∧ vg.size = exParamC.values.length ∧
      vg.choices = [] :=
  C7_continuous_registration "Optimization using pyOpt" exHost exHB.calcGrad
    [] exBP "x" exParamC rfl (List.mem_cons_self _ _) rfl

/-- C9: every equality constraint of size n is registered with lower and
upper bounds both equal to the length-n zero vector, and every inequality
constraint of size n is registered with upper bound the length-n zero
vector and no lower bound at all, whatever the linearity flag. -/
theorem C9_constraint_bounds (t : String) (host : Host)
    (cg : List String → List String → Except PyErr JacDict)
    (bevs : List Event) (bp : BuiltProblem)
    (hbuild : buildProblem t host cg = (bevs, .ok bp)) :
    (∀ n c, (n, c) ∈ host.eq_constraints →
      ∃ g, g ∈ bp.conGroups ∧ g.name = pcompOut c.pcomp_name ∧
        g.size = c.size ∧ g.lower = some (List.replicate c.size 0) ∧
        g.upper = List.replicate c.size 0) ∧
    (∀ n c, (n, c) ∈ host.ineq_constraints →
      ∃ g, g ∈ bp.conGroups ∧ g.name = pcompOut c.pcomp_name ∧
        g.size = c.size ∧ g.lower = none ∧
        g.upper = List.replicate c.size 0) := by
  obtain ⟨-, -, -, -, ⟨eqGs, eqNl, inGs, inNl, heq, hineq, hcg, -⟩, -, -⟩ :=
    buildProblem_ok t host cg bevs bp hbuild
  constructor
  · intro n c hm
    obtain ⟨g, nl, hmk, hgm, -⟩ :=
      buildConGroups_mem (mkEqConGroup bp.lin_jacs bp.param_list)
        host.eq_constraints eqGs eqNl n c heq hm
    obtain ⟨h1, h2, h3, h4, -, -⟩ :=
      mkEqConGroup_ok bp.lin_jacs bp.param_list c g nl hmk
    refine ⟨g, ?_, h1, h2, h3, h4⟩
    rw [hcg]
    exact List.mem_append_left _ hgm
  · intro n c hm
    obtain ⟨g, nl, hmk, hgm, -⟩ :=
      buildConGroups_mem (mkIneqConGroup bp.lin_jacs bp.param_list)
        host.ineq_constraints inGs inNl n c hineq hm
    obtain ⟨h1, h2, h3, h4, -, -⟩ :=
      mkIneqConGroup_ok bp.lin_jacs bp.param_list c g nl hmk
    refine ⟨g, ?_, h1, h2, h3, h4⟩
    rw [hcg]
    exact List.mem_append_right _ hgm

/-- Witness for C9 on exHostCons, which has one equality and one
inequality constraint. -/
theorem C9_witness :
    (∀ n c, (n, c) ∈ exHostCons.eq_constraints →
      ∃ g, g ∈ exBPCons.conGroups ∧ g.name = pcompOut c.pcomp_name ∧
        g.size = c.size ∧ g.lower = some (List.replicate c.size 0) ∧
        g.upper = List.replicate c.size 0) ∧
    (∀ n c, (n, c) ∈ exHostCons.ineq_constraints →
      ∃ g, g ∈ exBPCons.conGroups ∧ g.name = pcompOut c.pcomp_name ∧
        g.size = c.size ∧ g.lower = none ∧
        g.upper = List.replicate c.size 0) :=
  C9_constraint_bounds "Optimization using pyOpt" exHostCons exHB.calcGrad
    [Event.calcGradient ["x"] ["h.out0"]] exBPCons rfl

/-- C5: when the requested optimizer name is not importable, execute
raises ImportError with a message naming the optimizer, after the problem
description was built (the first iteration ran and buildProblem
succeeded) and before any solver object is instantiated or run: the
trace contains no instantiateOptimizer and no solverRun event. -/
theorem C5_unavailable_optimizer (d : Driver) (installed : List String)
    (host : Host) (hb : HostBehavior) (bevs : List Event) (bp : BuiltProblem)
    (hrun : hb.run_result = none)
    (hbuild : buildProblem d.title host hb.calcGrad = (bevs, .ok bp))
    (hopt : d.optimizer ∉ installed) :
    executeDriver d installed host hb =
      (Event.runIteration :: bevs,
       .error (PyErr.importError
         ("Optimizer " ++ d.optimizer ++ " is not available in this installation."))) ∧
    Event.solverRun ∉ Event.runIteration :: bevs ∧
    (∀ s, Event.instantiateOptimizer s ∉ Event.runIteration :: bevs) := by
  have hnosolver : Event.solverRun ∉ bevs := by
    intro hmem
    obtain ⟨a, b, hab⟩ := buildProblem_events_calc d.title host hb.calcGrad
      bevs (.ok bp) Event.solverRun hbuild hmem
    exact absurd hab (by simp)
  have hnoinst : ∀ s, Event.instantiateOptimizer s ∉ bevs := by
    intro s hmem
    obtain ⟨a, b, hab⟩ := buildProblem_events_calc d.title host hb.calcGrad
      bevs (.ok bp) (Event.instantiateOptimizer s) hbuild hmem
    exact absurd hab (by simp)
  refine ⟨?_, ?_, ?_⟩
  · simp only [executeDriver, hrun, hbuild]
    rw [if_neg hopt]
  · intro hmem
    rcases List.mem_cons.mp hmem with h0 | h0
    · exact absurd h0 (by simp)
    · exact hnosolver h0
  · intro s hmem
    rcases List.mem_cons.mp hmem with h0 | h0
    · exact absurd h0 (by simp)
    · exact hnoinst s h0

/-- Witness for C5: requesting SNOPT in an installation that only has
SLSQP importable. -/
theorem C5_witness :
    executeDriver
      { optimizer := "SNOPT", title := "Optimization using pyOpt",
        options := [], print_results := true, pyopt_diff := false }
      ["SLSQP"] exHost exHB =
      (Event.runIteration :: [],
       .error (PyErr.importError
         ("Optimizer " ++ "SNOPT" ++ " is not available in this installation."))) ∧
    Event.solverRun ∉ Event.runIteration :: ([] : List Event) ∧
    (∀ s, Event.instantiateOptimizer s ∉ Event.runIteration :: ([] : List Event)) :=
  C5_unavailable_optimizer
    { optimizer := "SNOPT", title := "Optimization using pyOpt",
      options := [], print_results := true, pyopt_diff := false }
    ["SLSQP"] exHost exHB [] exBP rfl rfl (by decide)

/-- C2: objfunc either completes every step and returns failure flag 0
with an evaluation dictionary holding exactly one entry per registered
objective and constraint output name, or an exception in some step
(parameter setting, the model run, or an output evaluation) is caught, a
traceback is logged, and flag 1 is returned; objfunc is a total function
of the host behaviour, so no exception escapes it. -/
theorem C2_objfunc_contract (pt : List (String × VarType)) (host : Host)
    (hb : HostBehavior) (dv : DVDict) (evs : List Event) (fd : FuncDict)
    (fail : Nat) (h : objfunc pt host hb dv = (evs, fd, fail)) :
    (fail = 0 ∧ (fd.map Prod.fst).Nodup ∧
      (∀ k, k ∈ fd.map Prod.fst ↔ k ∈ objOutNames host ++ conOutNames host)) ∨
    (fail = 1 ∧ Event.printTraceback ∈ evs) := by
  simp only [objfunc] at h
  split at h
  · cases h
    exact Or.inr ⟨rfl, by simp⟩
  · rename_i evs0 st heq
    split at h
    · cases h
      exact Or.inr ⟨rfl, by simp⟩
    · split at h
      · cases h
        exact Or.inr ⟨rfl, by simp⟩
      · rename_i fd1 heq1
        split at h
        · cases h
          exact Or.inr ⟨rfl, by simp⟩
        · rename_i fd2 heq2
          cases h
          have h1 := evalOutputs_ok hb.obj_eval (objOutNames host) [] fd1 heq1
          have h2 := evalOutputs_ok hb.con_eval (conOutNames host) fd1 _ heq2
          refine Or.inl ⟨rfl, h2.2 (h1.2 (by simp)), ?_⟩
          intro k
          rw [h2.1 k, List.mem_append]
          constructor
          · rintro (hk | hk)
            · rcases (h1.1 k).mp hk with hk2 | hk2
              · simp at hk2
              · exact Or.inl hk2
            · exact Or.inr hk
          · rintro (hk | hk)
            · exact Or.inl ((h1.1 k).mpr (Or.inr hk))
            · exact Or.inr hk

/-- Witness for C2 at a successful concrete evaluation on exHost. -/
theorem C2_witness :
    (0 = 0 ∧ ((([("f.out0", [(1 : Rat)])] : FuncDict).map Prod.fst).Nodup ∧
      (∀ k, k ∈ ([("f.out0", [(1 : Rat)])] : FuncDict).map Prod.fst ↔
        k ∈ objOutNames exHost ++ conOutNames exHost)) ) ∨
    (0 = 1 ∧ Event.printTraceback ∈
      [Event.setParam "x" (wbVal VarType.c 3), Event.runIteration]) :=
  C2_objfunc_contract [("x", VarType.c)] exHost exHB [("x", 3)]
    [Event.setParam "x" (wbVal VarType.c 3), Event.runIteration]
    [("f.out0", [1])] 0 rfl

theorem writeBack_setParam_rounds (pt : List (String × VarType)) (dv : DVDict)
    (sr : String → PyVal → Option PyErr) (params : List (String × Param))
    (evs : List Event) (r : Except PyErr (List (String × PyVal)))
    (name : String) (v : PyVal)
    (h : writeBack pt dv sr params = (evs, r))
    (hmem : Event.setParam name v ∈ evs)
    (hpt : alookup pt name = some VarType.i) :
    ∃ q, alookup dv name = some q ∧ v = PyVal.int (pyRound q) := by
  obtain ⟨name2, q, t, hq, ht, he⟩ :=
    writeBack_events_mem pt dv sr params evs r (Event.setParam name v) h hmem
  injection he with h1 h2
  subst h1
  rw [hpt] at ht
  injection ht with h3
  subst h3
  rw [h2]
  exact ⟨q, hq, by simp [wbVal]⟩

theorem buildProblem_no_setParam (t : String) (host : Host)
    (cg : List String → List String → Except PyErr JacDict)
    (bevs : List Event) (r : Except PyErr BuiltProblem)
    (name : String) (v : PyVal)
    (h : buildProblem t host cg = (bevs, r)) :
    Event.setParam name v ∉ bevs := by
  intro hmem
  obtain ⟨a, b, hab⟩ :=
    buildProblem_events_calc t host cg bevs r (Event.setParam name v) h hmem
  exact absurd hab (by simp)

/-- C3: whenever the solver hands back a value for a parameter whose
recorded kind is integer, the value written into the host is
int(round(value)): this holds for every setParam the objfunc callback
performs on a probe, and for every setParam of the final write-back done
by execute after the solver returns. -/
theorem C3_integer_rounding :
    (∀ (pt : List (String × VarType)) (host : Host) (hb : HostBehavior)
       (dv : DVDict) (evs : List Event) (fd : FuncDict) (fail : Nat)
       (name : String) (v : PyVal),
      objfunc pt host hb dv = (evs, fd, fail) →
      Event.setParam name v ∈ evs →
      alookup pt name = some VarType.i →
      ∃ q, alookup dv name = some q ∧ v = PyVal.int (pyRound q)) ∧
    (∀ (d : Driver) (installed : List String) (host : Host)
       (hb : HostBehavior) (tr : List Event) (r : Except PyErr ExecResult)
       (bevs : List Event) (bp : BuiltProblem) (name : String) (v : PyVal),
      executeDriver d installed host hb = (tr, r) →
      buildProblem d.title host hb.calcGrad = (bevs, .ok bp) →
      Event.setParam name v ∈ tr →
      alookup bp.param_type name = some VarType.i →
      ∃ q, alookup (hb.solve bp) name = some q ∧ v = PyVal.int (pyRound q)) := by
  constructor
  · intro pt host hb dv evs fd fail name v h hmem hpt
    simp only [objfunc] at h
    split at h
    · rename_i evs0 e heq
      cases h
      simp at hmem
      exact writeBack_setParam_rounds pt dv hb.set_result host.parameters
        evs0 _ name v heq hmem hpt
    · rename_i evs0 st heq
      split at h
      · cases h
        simp at hmem
        exact writeBack_setParam_rounds pt dv hb.set_result host.parameters
          evs0 _ name v heq hmem hpt
      · split at h
        · cases h
          simp at hmem
          exact writeBack_setParam_rounds pt dv hb.set_result host.parameters
            evs0 _ name v heq hmem hpt
        · split at h
          · cases h
            simp at hmem
            exact writeBack_setParam_rounds pt dv hb.set_result host.parameters
              evs0 _ name v heq hmem hpt
          · cases h
            simp at hmem
            exact writeBack_setParam_rounds pt dv hb.set_result host.parameters
              evs0 _ name v heq hmem hpt
  · intro d installed host hb tr r bevs bp name v hexec hbuild hmem hpt
    simp only [executeDriver] at hexec
    split at hexec
    · cases hexec
      simp at hmem
    · rename_i hrun
      split at hexec
      · rename_i bevs2 e heq
        rw [hbuild] at heq
        injection heq with h1 h2
        exact absurd h2 (by simp)
      · rename_i bevs2 bp2 heq
        rw [hbuild] at heq
        injection heq with h1 h2
        injection h2 with h3
        subst h1
        subst h3
        split at hexec
        · rename_i hin
          split at hexec
          · rename_i wevs e hwb
            cases hexec
            simp at hmem
            rcases hmem with h0 | h0
            · exact absurd h0 (buildProblem_no_setParam d.title host hb.calcGrad
                bevs _ name v hbuild)
            · exact writeBack_setParam_rounds bp.param_type (hb.solve bp)
                hb.set_result host.parameters wevs _ name v hwb h0 hpt
          · rename_i wevs st hwb
            split at hexec
            all_goals
              cases hexec
            all_goals
              simp at hmem
            all_goals
              rcases hmem with h0 | h0
            · exact absurd h0 (buildProblem_no_setParam d.title host hb.calcGrad
                bevs _ name v hbuild)
            · exact writeBack_setParam_rounds bp.param_type (hb.solve bp)
                hb.set_result host.parameters wevs _ name v hwb h0 hpt
            · exact absurd h0 (buildProblem_no_setParam d.title host hb.calcGrad
                bevs _ name v hbuild)
            · exact writeBack_setParam_rounds bp.param_type (hb.solve bp)
                hb.set_result host.parameters wevs _ name v hwb h0 hpt
        · cases hexec
          simp at hmem
          exact absurd hmem (buildProblem_no_setParam d.title host hb.calcGrad
            bevs _ name v hbuild)

/-- Witness for C3: probing objfunc with n = 3 on an integer parameter
writes PyVal.int (pyRound 3). -/
theorem C3_witness :
    ∃ q, alookup [("n", (3 : Rat))] "n" = some q ∧
      wbVal VarType.i 3 = PyVal.int (pyRound q) :=
  C3_integer_rounding.1 [("n", VarType.i)] exHostI exHBI [("n", 3)]
    [Event.setParam "n" (wbVal VarType.i 3), Event.runIteration] [] 0
    "n" (wbVal VarType.i 3) rfl (List.mem_cons_self _ _) rfl

/-- C4: on a completed run, every host parameter ends up holding the
value of the solution design-variable dictionary for its name (written
through wbVal, so integer-kind entries are rounded), every write-back
event happens after the solver run, and exactly one further host
iteration is run after the write-back, as the very last call of
execute. -/
theorem C4_optimum_writeback (d : Driver) (installed : List String)
    (host : Host) (hb : HostBehavior) (tr : List Event) (res : ExecResult)
    (hexec : executeDriver d installed host hb = (tr, .ok res))
    (hnodup : (host.parameters.map Prod.fst).Nodup) :
    (∀ name p, (name, p) ∈ host.parameters →
      ∃ q t, alookup res.sol_dvs name = some q ∧
        alookup res.problem.param_type name = some t ∧
        alookup res.final_params name = some (wbVal t q)) ∧
    (∃ pre wevs, tr = pre ++ [Event.solverRun] ++ wevs ++ [Event.runIteration] ∧
      (∀ e ∈ wevs, ∃ n2 v2, e = Event.setParam n2 v2) ∧
      (∀ name p, (name, p) ∈ host.parameters →
        ∃ q t, alookup res.sol_dvs name = some q ∧
          alookup res.problem.param_type name = some t ∧
          Event.setParam name (wbVal t q) ∈ wevs)) := by
  obtain ⟨hrun, bevs, wevs, hbuild, hsol, hwb, hin, htr⟩ :=
    executeDriver_ok d installed host hb tr res hexec
  constructor
  · intro name p hm
    obtain ⟨q, t, hq, ht, hst, hev⟩ := writeBack_ok_lookup res.problem.param_type
      (hb.solve res.problem) hb.set_result host.parameters wevs res.final_params
      name p hwb hnodup hm
    exact ⟨q, t, by rw [hsol]; exact hq, ht, hst⟩
  · refine ⟨Event.runIteration :: bevs ++ [Event.instantiateOptimizer d.optimizer],
      wevs, ?_, ?_, ?_⟩
    · rw [htr]
      simp
    · intro e he
      obtain ⟨name2, q, t, hq, ht, he2⟩ := writeBack_events_mem
        res.problem.param_type (hb.solve res.problem) hb.set_result
        host.parameters wevs _ e hwb he
      exact ⟨name2, wbVal t q, he2⟩
    · intro name p hm
      obtain ⟨q, t, hq, ht, hst, hev⟩ := writeBack_ok_lookup res.problem.param_type
        (hb.solve res.problem) hb.set_result host.parameters wevs res.final_params
        name p hwb hnodup hm
      exact ⟨q, t, by rw [hsol]; exact hq, ht, hev⟩

/-- The trace and result of a concrete successful run on exHost. -/
def exTr : List Event :=
  [Event.runIteration, Event.instantiateOptimizer "SLSQP", Event.solverRun,
   Event.setParam "x" (wbVal VarType.c 3), Event.runIteration]

def exRes : ExecResult :=
  { sol_dvs := [("x", 3)],
    final_params := [("x", wbVal VarType.c 3)],
    problem := exBP }

/-- Witness for C4 on the concrete run of exHost. -/
theorem C4_witness :
    (∀ name p, (name, p) ∈ exHost.parameters →
      ∃ q t, alookup exRes.sol_dvs name = some q ∧
        alookup exRes.problem.param_type name = some t ∧
        alookup exRes.final_params name = some (wbVal t q)) ∧
    (∃ pre wevs, exTr = pre ++ [Event.solverRun] ++ wevs ++ [Event.runIteration] ∧
      (∀ e ∈ wevs, ∃ n2 v2, e = Event.setParam n2 v2) ∧
      (∀ name p, (name, p) ∈ exHost.parameters →
        ∃ q t, alookup exRes.sol_dvs name = some q ∧
          alookup exRes.problem.param_type name = some t ∧
          Event.setParam name (wbVal t q) ∈ wevs)) :=
  C4_optimum_writeback exDriver ["SLSQP"] exHost exHB exTr exRes rfl (by decide)

/-- Discriminator for gradient-precomputation events. -/
def isCalcGradient : Event → Bool
  | Event.calcGradient _ _ => true
  | _ => false

/-- C6: when the run completes, the Jacobian of the linear constraints is
computed by exactly one calc_gradient call, placed before the solver run
(and none after it in execute's own trace; per-iteration gradient
requests are issued by gradfunc, which asks for the objectives and
nonlinear constraints, see C8), with the full parameter list and the
linear-constraint output names as arguments; each linear constraint group
is registered with that precomputed Jacobian block and stays off the
nonlinear-constraint list, while each nonlinear constraint group is
registered without a Jacobian and its name is put on the
nonlinear-constraint list. -/
theorem C6_linear_constraint_jacobians (d : Driver) (installed : List String)
    (host : Host) (hb : HostBehavior) (tr : List Event) (res : ExecResult)
    (hexec : executeDriver d installed host hb = (tr, .ok res))
    (hnames : ((host.eq_constraints ++ host.ineq_constraints).map
      (fun nc => pcompOut nc.2.pcomp_name)).Nodup) :
    (∃ pre post, tr = pre ++ [Event.solverRun] ++ post ∧
      post.filter isCalcGradient = [] ∧
      (linearConsOf host = [] → pre.filter isCalcGradient = []) ∧
      (linearConsOf host ≠ [] →
        pre.filter isCalcGradient =
          [Event.calcGradient (host.parameters.map Prod.fst) (lconNamesOf host)] ∧
        hb.calcGrad (host.parameters.map Prod.fst) (lconNamesOf host)
          = .ok res.problem.lin_jacs)) ∧
    (∀ n c, (n, c) ∈ host.eq_constraints ++ host.ineq_constraints →
      ∃ g, g ∈ res.problem.conGroups ∧ g.name = pcompOut c.pcomp_name ∧
        (c.linear = true → g.linear = true ∧ g.wrt = some res.problem.param_list ∧
          (∃ j, alookup res.problem.lin_jacs g.name = some j ∧ g.jac = some j) ∧
          g.name ∉ res.problem.nlcons) ∧
        (c.linear = false → g.linear = false ∧ g.jac = none ∧ g.wrt = none ∧
          g.name ∈ res.problem.nlcons)) := by
  obtain ⟨hrun, bevs, wevs, hbuild, hsol, hwb, hin, htr⟩ :=
    executeDriver_ok d installed host hb tr res hexec
  obtain ⟨hvgs, hptype, hplist, hobjs,
      ⟨eqGs, eqNl, inGs, inNl, heqc, hineqc, hcgs, hnlc⟩, hempCase, hnempCase⟩ :=
    buildProblem_ok d.title host hb.calcGrad bevs res.problem hbuild
  constructor
  · refine ⟨Event.runIteration :: bevs ++ [Event.instantiateOptimizer d.optimizer],
      wevs ++ [Event.runIteration], ?_, ?_, ?_, ?_⟩
    · rw [htr]
      simp
    · rw [List.filter_eq_nil_iff]
      intro e he
      rcases List.mem_append.mp he with h0 | h0
      · obtain ⟨name2, q, t, hq, ht, he2⟩ := writeBack_events_mem
          res.problem.param_type (hb.solve res.problem) hb.set_result
          host.parameters wevs _ e hwb h0
        rw [he2]
        simp [isCalcGradient]
      · rcases List.mem_singleton.mp h0 with rfl
        simp [isCalcGradient]
    · intro hl
      have hempty : (linearConsOf host).isEmpty = true := by
        rw [hl]
        rfl
      obtain ⟨hb1, -⟩ := hempCase hempty
      rw [hb1]
      simp [isCalcGradient]
    · intro hl
      have hempty : (linearConsOf host).isEmpty = false := by
        cases hcase : linearConsOf host with
        | nil => exact absurd hcase hl
        | cons a l => rfl
      obtain ⟨hb1, hb2⟩ := hnempCase hempty
      rw [hb1, hplist]
      constructor
      · simp [isCalcGradient]
      · rw [← hplist]
        exact hb2
  · intro n c hm
    have hnl_src : ∀ s, s ∈ res.problem.nlcons →
        ∃ n2 c2, (n2, c2) ∈ host.eq_constraints ++ host.ineq_constraints ∧
          c2.linear = false ∧ s = pcompOut c2.pcomp_name := by
      intro s hs
      rw [hnlc] at hs
      rcases List.mem_append.mp hs with h0 | h0
      · obtain ⟨n2, c2, g2, hm2, hmk2⟩ := buildConGroups_nl_src
          (mkEqConGroup res.problem.lin_jacs res.problem.param_list)
          host.eq_constraints eqGs eqNl s heqc h0
        obtain ⟨-, -, -, -, hlin2, hnlin2⟩ :=
          mkEqConGroup_ok res.problem.lin_jacs res.problem.param_list c2 g2 _ hmk2
        cases hc2 : c2.linear with
        | true =>
          obtain ⟨-, -, hnone, -⟩ := hlin2 hc2
          exact absurd hnone (by simp)
        | false =>
          obtain ⟨-, -, -, hsome⟩ := hnlin2 hc2
          injection hsome with h4
          exact ⟨n2, c2, List.mem_append_left _ hm2, hc2, h4⟩
      · obtain ⟨n2, c2, g2, hm2, hmk2⟩ := buildConGroups_nl_src
          (mkIneqConGroup res.problem.lin_jacs res.problem.param_list)
          host.ineq_constraints inGs inNl s hineqc h0
        obtain ⟨-, -, -, -, hlin2, hnlin2⟩ :=
          mkIneqConGroup_ok res.problem.lin_jacs res.problem.param_list c2 g2 _ hmk2
        cases hc2 : c2.linear with
        | true =>
          obtain ⟨-, -, hnone, -⟩ := hlin2 hc2
          exact absurd hnone (by simp)
        | false =>
          obtain ⟨-, -, -, hsome⟩ := hnlin2 hc2
          injection hsome with h4
          exact ⟨n2, c2, List.mem_append_right _ hm2, hc2, h4⟩
    have hnotmem : c.linear = true → pcompOut c.pcomp_name ∉ res.problem.nlcons := by
      intro hlin hmem
      obtain ⟨n2, c2, hm2, hc2lin, hs⟩ := hnl_src _ hmem
      have hinj := List.inj_on_of_nodup_map hnames hm hm2
      have : (n, c) = (n2, c2) := hinj (by simpa using hs)
      injection this with h5 h6
      rw [← h6] at hc2lin
      rw [hlin] at hc2lin
      exact absurd hc2lin (by simp)
    rcases List.mem_append.mp hm with h0 | h0
    · obtain ⟨g, nl, hmk, hgm, hnlmem⟩ := buildConGroups_mem
        (mkEqConGroup res.problem.lin_jacs res.problem.param_list)
        host.eq_constraints eqGs eqNl n c heqc h0
      obtain ⟨hname, hsize, hlow, hup, hlin, hnlin⟩ :=
        mkEqConGroup_ok res.problem.lin_jacs res.problem.param_list c g nl hmk
      refine ⟨g, by rw [hcgs]; exact List.mem_append_left _ hgm, hname, ?_, ?_⟩
      · intro hl
        obtain ⟨hg1, hg2, hg3, j, hj1, hj2⟩ := hlin hl
        refine ⟨hg1, hg2, ⟨j, by rw [hname]; exact hj1, hj2⟩, ?_⟩
        rw [hname]
        exact hnotmem hl
      · intro hl
        obtain ⟨hg1, hg2, hg3, hg4⟩ := hnlin hl
        refine ⟨hg1, hg3, hg2, ?_⟩
        rw [hname, hnlc]
        exact List.mem_append_left _ (hnlmem _ hg4)
    · obtain ⟨g, nl, hmk, hgm, hnlmem⟩ := buildConGroups_mem
        (mkIneqConGroup res.problem.lin_jacs res.problem.param_list)
        host.ineq_constraints inGs inNl n c hineqc h0
      obtain ⟨hname, hsize, hlow, hup, hlin, hnlin⟩ :=
        mkIneqConGroup_ok res.problem.lin_jacs res.problem.param_list c g nl hmk
      refine ⟨g, by rw [hcgs]; exact List.mem_append_right _ hgm, hname, ?_, ?_⟩
      · intro hl
        obtain ⟨hg1, hg2, hg3, j, hj1, hj2⟩ := hlin hl
        refine ⟨hg1, hg2, ⟨j, by rw [hname]; exact hj1, hj2⟩, ?_⟩
        rw [hname]
        exact hnotmem hl
      · intro hl
        obtain ⟨hg1, hg2, hg3, hg4⟩ := hnlin hl
        refine ⟨hg1, hg3, hg2, ?_⟩
        rw [hname, hnlc]
        exact List.mem_append_right _ (hnlmem _ hg4)

/-- The trace and result of a concrete successful run on exHostCons. -/
def exTrCons : List Event :=
  [Event.runIteration, Event.calcGradient ["x"] ["h.out0"],
   Event.instantiateOptimizer "SLSQP", Event.solverRun,
   Event.setParam "x" (wbVal VarType.c 3), Event.runIteration]

def exResCons : ExecResult :=
  { sol_dvs := [("x", 3)],
    final_params := [("x", wbVal VarType.c 3)],
    problem := exBPCons }

/-- Witness for C6 on the concrete run of exHostCons, which has one
linear equality constraint and one nonlinear inequality constraint. -/
theorem C6_witness :
    (∃ pre post, exTrCons = pre ++ [Event.solverRun] ++ post ∧
      post.filter isCalcGradient = [] ∧
      (linearConsOf exHostCons = [] → pre.filter isCalcGradient = []) ∧
      (linearConsOf exHostCons ≠ [] →
        pre.filter isCalcGradient =
          [Event.calcGradient (exHostCons.parameters.map Prod.fst)
            (lconNamesOf exHostCons)] ∧
        exHB.calcGrad (exHostCons.parameters.map Prod.fst) (lconNamesOf exHostCons)
          = .ok exResCons.problem.lin_jacs)) ∧
    (∀ n c, (n, c) ∈ exHostCons.eq_constraints ++ exHostCons.ineq_constraints →
      ∃ g, g ∈ exResCons.problem.conGroups ∧ g.name = pcompOut c.pcomp_name ∧
        (c.linear = true → g.linear = true ∧
          g.wrt = some exResCons.problem.param_list ∧
          (∃ j, alookup exResCons.problem.lin_jacs g.name = some j ∧
            g.jac = some j) ∧
          g.name ∉ exResCons.problem.nlcons) ∧
        (c.linear = false → g.linear = false ∧ g.jac = none ∧ g.wrt = none ∧
          g.name ∈ exResCons.problem.nlcons)) :=
  C6_linear_constraint_jacobians exDriver ["SLSQP"] exHostCons exHB
    exTrCons exResCons rfl (by decide)
